import Mathlib

/-!
# Verification of `src/bokeh/real_time_stream/iex_server.py`

A shallow embedding of the iex_server bokeh script and proofs about it.

Embedding conventions:

* Python strings are modelled as `List Char` (`PyStr`), so slicing such as
  `time[1:]` is `List.drop 1`.
* Python floats are modelled as rationals (`Rat`); no claim concerns
  floating-point rounding.
* A timezone-aware `datetime` is modelled as `ZonedDT`: the absolute instant
  in milliseconds since the Unix epoch together with the UTC offset in
  minutes.  The pytz timezone database entry for `'US/Eastern'` is modelled
  by a parameter `tz : Int → Int` mapping an instant to the zone's UTC
  offset at that instant.
* Fallible Python code (uncaught exceptions: `KeyError`, `ValueError` from
  `dateutil.parser.parse`, `TypeError` from `float()` on a multi-element
  series, parse errors in `pd.to_datetime`) is modelled with `Option`:
  `none` means the call raises and no value is produced.
* The network is modelled as an environment `env : Request → PyStr` giving
  the response body for a request; `get_last_price` additionally returns the
  list of HTTP requests it issued, so that "exactly one GET, no retries"
  is expressible.
* External library string renderings (`pandas.Series.to_string` of a
  datetime series, `Series.dt.strftime`) print a timezone-aware timestamp
  as its local civil time plus UTC offset; that rendering is injective in
  the pair (local time, offset).  We model it by an injective textual
  encoding of that same content — decimal digits of the local milliseconds
  and of the offset — keeping exactly the structure the script's code
  depends on: the `to_string` index prefix (`"0"` followed by spaces for a
  one-row series, one line per row joined by `'\n'` otherwise, the
  `"Series([], ...)"` banner for an empty series), and `dateutil.parser.parse`
  accepting leading whitespace, inverting the rendering of a single
  timestamp, and raising on trailing garbage such as further rows.
-/

namespace IexServer

/-- Python `str` modelled as a list of characters. -/
abbrev PyStr := List Char

/-- `True` for the ASCII digits `'0'`-`'9'`. -/
def isDigitChar (c : Char) : Bool := 48 ≤ c.toNat && c.toNat ≤ 57

/-- Numeric value of an ASCII digit. -/
def charVal (c : Char) : Nat := c.toNat - 48

/-- The ASCII digit for a value `< 10`. -/
def digitChar : Nat → Char
  | 0 => '0'
  | 1 => '1'
  | 2 => '2'
  | 3 => '3'
  | 4 => '4'
  | 5 => '5'
  | 6 => '6'
  | 7 => '7'
  | 8 => '8'
  | 9 => '9'
  | _ => '*'

/-- Little-endian decimal digits of `n`, with explicit fuel (`fuel ≥ n`
suffices). -/
def revDigits : Nat → Nat → List Nat
  | 0, _ => []
  | fuel + 1, n => if n = 0 then [] else (n % 10) :: revDigits fuel (n / 10)

/-- Value of a little-endian digit list. -/
def valLE : List Nat → Nat
  | [] => 0
  | d :: ds => d + 10 * valLE ds

/-- Decimal rendering of a natural number. -/
def renderNat (n : Nat) : List Char :=
  if n = 0 then ['0'] else ((revDigits (n + 1) n).map digitChar).reverse

/-- Decimal rendering of an integer. -/
def renderInt (i : Int) : List Char :=
  if i < 0 then '-' :: renderNat (-i).toNat else renderNat i.toNat

/-- Parse a digit string (the numeric part of what `int()`/`dateutil`
accept): nonempty, all digits. -/
def decodeNat (cs : List Char) : Option Nat :=
  if cs = [] then none
  else if cs.all isDigitChar then
    some (cs.foldl (fun a c => a * 10 + charVal c) 0)
  else none

/-- Parse an optionally-signed digit string. -/
def decodeInt (cs : List Char) : Option Int :=
  match cs with
  | [] => none
  | c :: rest =>
    if c = '-' then (decodeNat rest).map (fun n => -(n : Int))
    else (decodeNat (c :: rest)).map (fun n => (n : Int))

/-- A timezone-aware `datetime`: absolute instant (ms since the Unix epoch,
UTC) plus the UTC offset in minutes that the zone assigns to it. -/
structure ZonedDT where
  instantMs : Int
  offsetMin : Int
deriving DecidableEq

/-- `pandas .dt.tz_localize('UTC')` on an epoch value: same instant, zero
offset. -/
def tz_localize_utc (ms : Int) : ZonedDT := ⟨ms, 0⟩

/-- `pandas .dt.tz_convert(set_timezone)`: same instant, offset given by the
target zone (`tz` models the pytz `'US/Eastern'` offset table). -/
def tz_convert (tz : Int → Int) (d : ZonedDT) : ZonedDT := ⟨d.instantMs, tz d.instantMs⟩

/-- Local civil time of a zoned datetime, in milliseconds. -/
def localMs (d : ZonedDT) : Int := d.instantMs + d.offsetMin * 60000

/-- Injective model of the pandas rendering of one timezone-aware timestamp
(`"%Y-%m-%d %H:%M:%S[.f]±hh:mm"`): the rendering determines, and is
determined by, the local civil time and the UTC offset, which we encode in
decimal separated by `'|'`. -/
def renderDT (d : ZonedDT) : PyStr := renderInt (localMs d) ++ '|' :: renderInt d.offsetMin

/-- Model of `Series.dt.strftime("%Y-%m-%d %H:%M:%S")` applied to one
timestamp: the local civil time truncated to whole seconds, rendered in
decimal. -/
def displayRender (d : ZonedDT) : PyStr := renderInt (Int.fdiv (localMs d) 1000)

/-- Split a character list at the first `'|'` (the separator of the
timestamp rendering); `none` when absent. -/
def splitBar : List Char → Option (List Char × List Char)
  | [] => none
  | c :: cs =>
    if c = '|' then some ([], cs)
    else (splitBar cs).map (fun p => (c :: p.1, p.2))

/-- Model of `dateutil.parser.parse`: skip leading spaces, then invert the
rendering of a single timestamp; anything else (no timestamp, trailing
garbage such as further series rows, the empty-series banner) raises, i.e.
returns `none`. -/
def parseDTChars (cs : List Char) : Option ZonedDT :=
  match splitBar (cs.dropWhile (· = ' ')) with
  | none => none
  | some (a, b) =>
    match decodeInt a, decodeInt b with
    | some lm, some off => some ⟨lm - off * 60000, off⟩
    | _, _ => none

/-- `dateutil.parser.parse` on a Python string. -/
def dateutil_parse (s : PyStr) : Option ZonedDT := parseDTChars s

/-- Split a character list on a separator character (groups between
occurrences), as `str.split` / the line- and comma-splitting done by
`pd.read_csv`. -/
def splitOnChar (sep : Char) : List Char → List PyStr
  | [] => [[]]
  | c :: cs =>
    if c = sep then [] :: splitOnChar sep cs
    else
      match splitOnChar sep cs with
      | [] => [[c]]
      | g :: gs => (c :: g) :: gs

/-- The parsed tabular response (`pd.read_csv` result): a header row of
column names and the data rows, all cells kept as strings (numeric
conversion happens at the use sites, where a non-numeric cell raises). -/
structure DataFrame where
  header : List PyStr
  rows : List (List PyStr)
deriving DecidableEq

/-- `pd.read_csv(raw, sep=",")`: first line is the header, remaining
non-blank lines are data rows, each split on commas. -/
def read_csv (content : PyStr) : DataFrame :=
  match splitOnChar '\n' content with
  | [] => ⟨[], []⟩
  | h :: rest => ⟨splitOnChar ',' h, (rest.filter (· ≠ [])).map (splitOnChar ',')⟩

/-- Index of a column name in the header (`df[name]` lookup). -/
def idxOf? (name : PyStr) : List PyStr → Option Nat
  | [] => none
  | h :: t => if h = name then some 0 else (idxOf? name t).map (· + 1)

/-- Column access `df[name]`: `none` models the `KeyError` raised when the
column is absent; a row shorter than the header yields the empty cell
(pandas `NaN`). -/
def DataFrame.col (df : DataFrame) (name : PyStr) : Option (List PyStr) :=
  match idxOf? name df.header with
  | none => none
  | some i => some (df.rows.map (fun r => r.getD i []))

/-- `pd.to_datetime(cells, unit="ms")` before timezone handling: every cell
must parse as an integer count of milliseconds; otherwise the call raises. -/
def decodeIntList : List PyStr → Option (List Int)
  | [] => some []
  | c :: cs =>
    match decodeInt c, decodeIntList cs with
    | some i, some is => some (i :: is)
    | _, _ => none

/-- Decimal (unsigned) rational literal, e.g. `"250.12"`. -/
def decodePosRat (cs : List Char) : Option Rat :=
  match cs.span (· ≠ '.') with
  | (a, []) => (decodeNat a).map (fun n => (n : Rat))
  | (a, '.' :: b) =>
    match decodeNat a, decodeNat b with
    | some i, some f => some ((i : Rat) + (f : Rat) / (10 : Rat) ^ b.length)
    | _, _ => none
  | (_, _ :: _) => none

/-- `float(...)` on one decimal literal cell. -/
def decodeRat (cs : List Char) : Option Rat :=
  match cs with
  | [] => none
  | c :: rest => if c = '-' then (decodePosRat rest).map Neg.neg else decodePosRat (c :: rest)

/-- `float(series)`: in pandas 1.0.3 this succeeds exactly when the series
has a single element (otherwise `TypeError`), converting that element. -/
def float_of_series (cells : List PyStr) : Option Rat :=
  match cells with
  | [cell] => decodeRat cell
  | _ => none

/-- The lines of `Series.to_string` for a nonempty datetime series: each row
is its index followed by spaces and the rendered timestamp. -/
def seriesLines (i : Nat) : List ZonedDT → List PyStr
  | [] => []
  | d :: ds => (renderNat i ++ ' ' :: ' ' :: ' ' :: renderDT d) :: seriesLines (i + 1) ds

/-- Join lines with `'\n'` (no trailing newline), as `to_string` lays out a
multi-row series. -/
def joinLines : List PyStr → PyStr
  | [] => []
  | [l] => l
  | l :: ls => l ++ '\n' :: joinLines ls

/-- `Series.to_string()` on the converted datetime series: the banner pandas
prints for an empty series, otherwise the indexed lines. -/
def series_to_string (l : List ZonedDT) : PyStr :=
  match l with
  | [] => ("Series([], Name: time, dtype: datetime64[ns, US/Eastern])").data
  | _ => joinLines (seriesLines 0 l)

/-- An outbound HTTP request as issued by `requests.get(url, params=...)`:
no timeout, no retry policy, no cache key — just the URL and query
parameters. -/
structure Request where
  url : PyStr
  params : List (PyStr × PyStr)
deriving DecidableEq

/-- `base = 'https://ws-api.iextrading.com/1.0/'`. -/
def base : PyStr := ("https://ws-api.iextrading.com/1.0/").data

/-- `endpoint = 'tops/last'`. -/
def endpoint : PyStr := ("tops/last").data

/-- `set_timezone = 'US/Eastern'` (the fixed target timezone; its offset
table is the `tz` parameter of the functions below). -/
def set_timezone : PyStr := ("US/Eastern").data

/-- The single request `get_last_price` issues:
`GET base + endpoint` with `payload = {"format": "csv", "symbols": TICKER}`. -/
def theRequest (ticker : PyStr) : Request :=
  ⟨base ++ endpoint, [(("format").data, ("csv").data), (("symbols").data, ticker)]⟩

/-- A value stored in the `display_time` column.  Python is dynamically
typed: the placeholder branch of `update_price` stores a `datetime`
(`dt`), the fetch branch stores the pandas `Series` returned by
`get_last_price` (`series`); a plain string (`str`) is what the spec's
Quote shape describes. -/
inductive DisplayVal where
  | dt (t : ZonedDT)
  | series (l : List PyStr)
  | str (s : PyStr)
deriving DecidableEq

/-- `get_last_price()`: one `requests.get`, `pd.read_csv`, the
epoch-ms-to-`US/Eastern` conversion, the `to_string()[1:]`/`parse` round
trip, the `strftime` display column, and `float()` on the price column.
Returns the list of HTTP requests issued, and `none` for the result when
any stage raises. -/
def get_last_price (tz : Int → Int) (env : Request → PyStr) (TICKER : PyStr) :
    List Request × Option (ZonedDT × DisplayVal × Rat) :=
  let req := theRequest TICKER
  let prices_df := read_csv (env req)
  let res :=
    match prices_df.col (("time").data) with
    | none => none
    | some timeCells =>
      match decodeIntList timeCells with
      | none => none
      | some ms =>
        let times := ms.map (fun m => tz_convert tz (tz_localize_utc m))
        match dateutil_parse (List.drop 1 (series_to_string times)) with
        | none => none
        | some time =>
          let display := DisplayVal.series (times.map displayRender)
          match prices_df.col (("price").data) with
          | none => none
          | some priceCells =>
            match float_of_series priceCells with
            | none => none
            | some price => some (time, display, price)
  ([req], res)

/-- The bokeh `ColumnDataSource` holding the streamed data: three parallel
columns. -/
structure ColumnDataSource where
  time : List ZonedDT
  display_time : List DisplayVal
  price : List Rat
deriving DecidableEq

/-- Keep the last `n` entries of a column (bokeh's rollover truncation). -/
def lastN (n : Nat) (l : List α) : List α := l.drop (l.length - n)

/-- `data.stream(new_data, rollover=n)`: append the new batch to each
column, then discard from the front anything beyond the rollover bound. -/
def ColumnDataSource.stream (s new : ColumnDataSource) (rollover : Nat) : ColumnDataSource :=
  ⟨lastN rollover (s.time ++ new.time),
   lastN rollover (s.display_time ++ new.display_time),
   lastN rollover (s.price ++ new.price)⟩

/-- The mutable program state: the module-level `TICKER`, the chart title
`price_plot.title.text`, and the `ColumnDataSource` `data`. -/
structure AppState where
  TICKER : PyStr
  title : PyStr
  data : ColumnDataSource
deriving DecidableEq

/-- The state after module initialisation: `TICKER = ""`, the initial
title, and `data = ColumnDataSource(dict(time=[], display_time=[],
price=[]))`. -/
def initState : AppState :=
  ⟨[], ("IEX Real Time Price Security Symbol: ").data ++ [], ⟨[], [], []⟩⟩

/-- `init()`: `datetime.now(timezone('UTC')).astimezone(timezone(set_timezone))`
— the current instant carrying the target zone's offset. -/
def init (tz : Int → Int) (nowMs : Int) : ZonedDT :=
  tz_convert tz (tz_localize_utc nowMs)

/-- `update_ticker()` with the text box holding `v`: overwrite `TICKER`,
set the title, and clear all three columns of `data`. -/
def update_ticker (v : PyStr) (s : AppState) : AppState :=
  { s with
    TICKER := v
    title := ("IEX Real-Time Price: ").data ++ v
    data := ⟨[], [], []⟩ }

/-- `update_price()` (one tick of the periodic callback).  `now1`/`now2`
are the two consecutive clock reads of the placeholder branch.  Returns the
HTTP requests issued and the new state (`none` when `get_last_price`
raises, killing the callback). -/
def update_price (tz : Int → Int) (env : Request → PyStr) (now1 now2 : Int) (s : AppState) :
    List Request × Option AppState :=
  if s.TICKER = [] then
    let time := init tz now1
    let display := init tz now2
    let new_price : Rat := 0
    ([], some { s with data := s.data.stream ⟨[time], [DisplayVal.dt display], [new_price]⟩ 3600 })
  else
    match get_last_price tz env s.TICKER with
    | (reqs, none) => (reqs, none)
    | (reqs, some (time, display, new_price)) =>
      (reqs, some { s with data := s.data.stream ⟨[time], [display], [new_price]⟩ 3600 })

/-- One environment per tick: the network contents and the two clock reads
during that tick. -/
abbrev TickEnv := (Request → PyStr) × Int × Int

/-- Run a sequence of `update_price` ticks; `none` as soon as one tick
raises. -/
def runTicks (tz : Int → Int) : List TickEnv → AppState → Option AppState
  | [], s => some s
  | (env, n1, n2) :: rest, s =>
    match (update_price tz env n1 n2 s).2 with
    | none => none
    | some s' => runTicks tz rest s'

/-- One event-loop step: either the user submits a ticker (button click
invoking `update_ticker`) or the periodic callback fires (`update_price`
completing without an exception). -/
inductive Step (tz : Int → Int) : AppState → AppState → Prop
  | ticker (v : PyStr) (s : AppState) : Step tz s (update_ticker v s)
  | price (env : Request → PyStr) (now1 now2 : Int) (s s' : AppState) :
      (update_price tz env now1 now2 s).2 = some s' → Step tz s s'

/-- States reachable from module initialisation by any interleaving of
ticker submissions and ticks. -/
def Reachable (tz : Int → Int) (s : AppState) : Prop :=
  Relation.ReflTransGen (Step tz) initState s

/-- The CSV body used by concrete test environments: header `time,price`,
one data row with time `i` (ms) and price `1`. -/
def csvFor (i : Nat) : PyStr := ("time,price").data ++ '\n' :: (renderNat i ++ ',' :: ['1'])

/-- The tick environments of a concrete test run: the i-th tick's fetch is
answered with `csvFor i`, and both clock readings are 0. -/
def stepsFor (k : Nat) : List TickEnv :=
  (List.range k).map (fun i => ((fun _ => csvFor i), (0 : Int), (0 : Int)))

/-- The quote that a fetch against `csvFor i` produces under the trivial
offset table `fun _ => 0`. -/
def quoteFor (i : Nat) : ZonedDT × DisplayVal × Rat :=
  (⟨(i : Int), 0⟩, DisplayVal.series [displayRender ⟨(i : Int), 0⟩], 1)

/-- The quotes of a concrete test run. -/
def quotesFor (k : Nat) : List (ZonedDT × DisplayVal × Rat) :=
  (List.range k).map quoteFor

theorem digitChar_isDigit {d : Nat} (h : d < 10) : isDigitChar (digitChar d) = true := by
  interval_cases d <;> decide

theorem charVal_digitChar {d : Nat} (h : d < 10) : charVal (digitChar d) = d := by
  interval_cases d <;> decide

theorem revDigits_lt : ∀ fuel n, ∀ d ∈ revDigits fuel n, d < 10 := by
  intro fuel
  induction fuel with
  | zero => intro n d hd; simp [revDigits] at hd
  | succ fuel ih =>
    intro n d hd
    by_cases h : n = 0
    · simp [revDigits, h] at hd
    · simp only [revDigits, if_neg h, List.mem_cons] at hd
      rcases hd with rfl | hd
      · exact Nat.mod_lt _ (by norm_num)
      · exact ih _ _ hd

theorem revDigits_val : ∀ fuel n, n ≤ fuel → valLE (revDigits fuel n) = n := by
  intro fuel
  induction fuel with
  | zero => intro n hn; interval_cases n; simp [revDigits, valLE]
  | succ fuel ih =>
    intro n hn
    by_cases h : n = 0
    · simp [revDigits, h, valLE]
    · have hdiv : n / 10 ≤ fuel := by
        have h1 : n / 10 < n := Nat.div_lt_self (Nat.pos_of_ne_zero h) (by norm_num)
        omega
      simp only [revDigits, if_neg h, valLE, ih _ hdiv]
      omega

theorem revDigits_ne_nil {fuel n : Nat} (hn : n ≠ 0) (hf : n ≤ fuel) :
    revDigits fuel n ≠ [] := by
  cases fuel with
  | zero => omega
  | succ fuel => simp [revDigits, hn]

theorem foldl_digits (ds : List Nat) (hds : ∀ d ∈ ds, d < 10) (acc : Nat) :
    List.foldl (fun a c => a * 10 + charVal c) acc ((ds.map digitChar).reverse) =
      acc * 10 ^ ds.length + valLE ds := by
  induction ds generalizing acc with
  | nil => simp [valLE]
  | cons d ds ih =>
    have hd : d < 10 := hds d (List.mem_cons_self _ _)
    have hds' : ∀ x ∈ ds, x < 10 := fun x hx => hds x (List.mem_cons_of_mem _ hx)
    simp only [List.map_cons, List.reverse_cons, List.foldl_append, List.foldl_cons,
      List.foldl_nil, ih hds', valLE, List.length_cons, charVal_digitChar hd]
    ring

theorem mem_renderNat_digit {c : Char} {n : Nat} (h : c ∈ renderNat n) :
    isDigitChar c = true := by
  unfold renderNat at h
  split at h
  · simp at h; subst h; decide
  · simp only [List.mem_reverse, List.mem_map] at h
    obtain ⟨d, hd, rfl⟩ := h
    exact digitChar_isDigit (revDigits_lt _ _ _ hd)

theorem renderNat_ne_nil (n : Nat) : renderNat n ≠ [] := by
  unfold renderNat
  split
  · simp
  · simp only [ne_eq, List.reverse_eq_nil_iff, List.map_eq_nil_iff]
    exact revDigits_ne_nil (by assumption) (by omega)

theorem decodeNat_renderNat (n : Nat) : decodeNat (renderNat n) = some n := by
  by_cases h : n = 0
  · subst h; decide
  · have hne := renderNat_ne_nil n
    have hall : (renderNat n).all isDigitChar = true := by
      rw [List.all_eq_true]
      intro c hc
      exact mem_renderNat_digit hc
    rw [decodeNat, if_neg hne, if_pos hall]
    unfold renderNat
    rw [if_neg h]
    rw [foldl_digits _ (revDigits_lt _ _), revDigits_val _ _ (by omega)]
    simp

theorem renderNat_head_digit (n : Nat) :
    ∃ c cs, renderNat n = c :: cs ∧ isDigitChar c = true := by
  cases h : renderNat n with
  | nil => exact absurd h (renderNat_ne_nil n)
  | cons c cs =>
    refine ⟨c, cs, rfl, ?_⟩
    exact mem_renderNat_digit (h ▸ List.mem_cons_self c cs)

theorem isDigitChar_ne_minus {c : Char} (h : isDigitChar c = true) : c ≠ '-' := by
  intro hc; subst hc; simp [isDigitChar] at h

theorem isDigitChar_ne_bar {c : Char} (h : isDigitChar c = true) : c ≠ '|' := by
  intro hc; subst hc; simp [isDigitChar] at h

theorem isDigitChar_ne_space {c : Char} (h : isDigitChar c = true) : c ≠ ' ' := by
  intro hc; subst hc; simp [isDigitChar] at h

theorem isDigitChar_ne_newline {c : Char} (h : isDigitChar c = true) : c ≠ '\n' := by
  intro hc; subst hc; simp [isDigitChar] at h

theorem decodeInt_renderNat (n : Nat) : decodeInt (renderNat n) = some (n : Int) := by
  obtain ⟨c, cs, hcons, hdig⟩ := renderNat_head_digit n
  rw [hcons, decodeInt, if_neg (isDigitChar_ne_minus hdig), ← hcons, decodeNat_renderNat]
  rfl

theorem decodeInt_renderInt (i : Int) : decodeInt (renderInt i) = some i := by
  unfold renderInt
  split
  · rename_i hneg
    rw [decodeInt, if_pos rfl, decodeNat_renderNat]
    simp only [Option.pure_def, Option.bind_eq_bind, Option.some_bind, Option.map_some',
      Option.some.injEq]
    omega
  · rename_i hpos
    rw [decodeInt_renderNat]
    congr 1
    omega

theorem mem_renderInt {c : Char} {i : Int} (h : c ∈ renderInt i) :
    isDigitChar c = true ∨ c = '-' := by
  unfold renderInt at h
  split at h
  · rcases List.mem_cons.mp h with rfl | h
    · exact Or.inr rfl
    · exact Or.inl (mem_renderNat_digit h)
  · exact Or.inl (mem_renderNat_digit h)

theorem bar_not_mem_renderInt (i : Int) : '|' ∉ renderInt i := by
  intro h
  rcases mem_renderInt h with h | h
  · exact isDigitChar_ne_bar h rfl
  · simp at h

theorem renderInt_head_not_space (i : Int) :
    ∃ c cs, renderInt i = c :: cs ∧ c ≠ ' ' := by
  unfold renderInt
  split
  · exact ⟨'-', _, rfl, by decide⟩
  · obtain ⟨c, cs, hcons, hdig⟩ := renderNat_head_digit i.toNat
    exact ⟨c, cs, hcons, isDigitChar_ne_space hdig⟩

theorem decodeNat_none_of_nondigit {c : Char} {cs : List Char}
    (hm : c ∈ cs) (hc : isDigitChar c = false) : decodeNat cs = none := by
  have hne : cs ≠ [] := by rintro rfl; simp at hm
  have hall : cs.all isDigitChar = false := by
    rw [← Bool.not_eq_true, List.all_eq_true]
    intro hforall
    rw [hforall c hm] at hc
    simp at hc
  simp [decodeNat, hne, hall]

theorem decodeInt_none_of_newline {cs : List Char} (hm : '\n' ∈ cs) :
    decodeInt cs = none := by
  cases cs with
  | nil => rfl
  | cons c rest =>
    rw [decodeInt]
    split
    · rename_i hc
      have hm' : '\n' ∈ rest := by
        rcases List.mem_cons.mp hm with h | h
        · exact absurd hc (by rw [← h]; decide)
        · exact h
      rw [decodeNat_none_of_nondigit hm' (by decide)]
      rfl
    · rw [decodeNat_none_of_nondigit hm (by decide)]
      rfl

theorem splitBar_append {a : List Char} (b : List Char) (ha : '|' ∉ a) :
    splitBar (a ++ '|' :: b) = some (a, b) := by
  induction a with
  | nil => simp [splitBar]
  | cons c a ih =>
    have hc : c ≠ '|' := fun h => ha (h ▸ List.mem_cons_self c a)
    have ha' : '|' ∉ a := fun h => ha (List.mem_cons_of_mem _ h)
    simp [splitBar, hc, ih ha']

theorem splitBar_none {cs : List Char} (h : '|' ∉ cs) : splitBar cs = none := by
  induction cs with
  | nil => rfl
  | cons c cs ih =>
    have hc : c ≠ '|' := fun hh => h (hh ▸ List.mem_cons_self c cs)
    have h' : '|' ∉ cs := fun hh => h (List.mem_cons_of_mem _ hh)
    simp [splitBar, hc, ih h']

theorem dropWhile_space_renderDT (d : ZonedDT) (rest : List Char) :
    List.dropWhile (· = ' ') (' ' :: ' ' :: ' ' :: (renderDT d ++ rest)) =
      renderDT d ++ rest := by
  obtain ⟨c, cs, hcons, hc⟩ := renderInt_head_not_space (localMs d)
  have hren : renderDT d ++ rest = c :: (cs ++ '|' :: renderInt d.offsetMin ++ rest) := by
    rw [renderDT, hcons]
    simp
  rw [hren, List.dropWhile_cons_of_pos (by decide), List.dropWhile_cons_of_pos (by decide),
    List.dropWhile_cons_of_pos (by decide), List.dropWhile_cons_of_neg (by simp [hc])]

theorem parseDT_render (d : ZonedDT) (rest : List Char) (hrest : decodeInt (renderInt d.offsetMin ++ rest) = some d.offsetMin) :
    parseDTChars (' ' :: ' ' :: ' ' :: (renderDT d ++ rest)) = some d := by
  rw [parseDTChars, dropWhile_space_renderDT]
  rw [show renderDT d ++ rest = renderInt (localMs d) ++ '|' :: (renderInt d.offsetMin ++ rest) by
    simp [renderDT]]
  rw [splitBar_append _ (bar_not_mem_renderInt _)]
  dsimp only
  rw [decodeInt_renderInt, hrest]
  dsimp only
  have : localMs d - d.offsetMin * 60000 = d.instantMs := by
    simp [localMs]
  rw [this]

theorem splitOnChar_ne_nil (sep : Char) : ∀ cs, splitOnChar sep cs ≠ [] := by
  intro cs
  induction cs with
  | nil => simp [splitOnChar]
  | cons c cs ih =>
    rw [splitOnChar]
    split
    · simp
    · split
      · simp
      · simp

theorem splitOnChar_no_sep {sep : Char} : ∀ {cs : List Char}, sep ∉ cs →
    splitOnChar sep cs = [cs] := by
  intro cs
  induction cs with
  | nil => intro _; rfl
  | cons c cs ih =>
    intro h
    have hc : c ≠ sep := fun hh => h (hh ▸ List.mem_cons_self c cs)
    have h' : sep ∉ cs := fun hh => h (List.mem_cons_of_mem _ hh)
    rw [splitOnChar, if_neg hc, ih h']

theorem splitOnChar_append {sep : Char} {a : List Char} (b : List Char) (ha : sep ∉ a) :
    splitOnChar sep (a ++ sep :: b) = a :: splitOnChar sep b := by
  induction a with
  | nil => simp [splitOnChar]
  | cons c a ih =>
    have hc : c ≠ sep := fun hh => ha (hh ▸ List.mem_cons_self c a)
    have ha' : sep ∉ a := fun hh => ha (List.mem_cons_of_mem _ hh)
    rw [List.cons_append, splitOnChar, if_neg hc, ih ha']

theorem lastN_length (n : Nat) (l : List α) : (lastN n l).length = min l.length n := by
  simp only [lastN, List.length_drop]
  omega

theorem lastN_length_le (n : Nat) (l : List α) : (lastN n l).length ≤ n := by
  rw [lastN_length]
  omega

theorem lastN_of_le {n : Nat} {l : List α} (h : l.length ≤ n) : lastN n l = l := by
  simp [lastN, Nat.sub_eq_zero_of_le h]

theorem lastN_append_lastN (n : Nat) (x y : List α) :
    lastN n (lastN n x ++ y) = lastN n (x ++ y) := by
  unfold lastN
  rw [List.drop_append_eq_append_drop, List.drop_drop, List.drop_append_eq_append_drop]
  have e1 : x.length - n + ((List.drop (x.length - n) x ++ y).length - n) =
      (x ++ y).length - n := by
    simp only [List.length_append, List.length_drop]
    omega
  have e2 : (List.drop (x.length - n) x ++ y).length - n - (List.drop (x.length - n) x).length =
      (x ++ y).length - n - x.length := by
    simp only [List.length_append, List.length_drop]
    omega
  rw [e1, e2]

theorem lastN_eq_drop (n : Nat) (l : List α) : lastN n l = l.drop (l.length - n) := rfl

theorem stream_time (s new : ColumnDataSource) (r : Nat) :
    (s.stream new r).time = lastN r (s.time ++ new.time) := rfl

theorem stream_display (s new : ColumnDataSource) (r : Nat) :
    (s.stream new r).display_time = lastN r (s.display_time ++ new.display_time) := rfl

theorem stream_price (s new : ColumnDataSource) (r : Nat) :
    (s.stream new r).price = lastN r (s.price ++ new.price) := rfl

attribute [irreducible] lastN

theorem roundtrip_single (d : ZonedDT) :
    dateutil_parse (List.drop 1 (series_to_string [d])) = some d := by
  have h : series_to_string [d] = '0' :: ' ' :: ' ' :: ' ' :: (renderDT d ++ []) := by
    simp [series_to_string, seriesLines, joinLines, show renderNat 0 = ['0'] by decide]
  rw [h]
  exact parseDT_render d [] (by rw [List.append_nil, decodeInt_renderInt])

theorem parse_multi_none (d0 d1 : ZonedDT) (ds : List ZonedDT) :
    dateutil_parse (List.drop 1 (series_to_string (d0 :: d1 :: ds))) = none := by
  have h : series_to_string (d0 :: d1 :: ds) =
      '0' :: ' ' :: ' ' :: ' ' ::
        (renderDT d0 ++ '\n' :: joinLines (seriesLines 1 (d1 :: ds))) := by
    simp [series_to_string, seriesLines, joinLines, show renderNat 0 = ['0'] by decide]
  rw [h]
  show parseDTChars (' ' :: ' ' :: ' ' ::
    (renderDT d0 ++ '\n' :: joinLines (seriesLines 1 (d1 :: ds)))) = none
  rw [parseDTChars, dropWhile_space_renderDT]
  rw [show renderDT d0 ++ '\n' :: joinLines (seriesLines 1 (d1 :: ds)) =
      renderInt (localMs d0) ++
        '|' :: (renderInt d0.offsetMin ++ '\n' :: joinLines (seriesLines 1 (d1 :: ds))) by
    simp [renderDT]]
  rw [splitBar_append _ (bar_not_mem_renderInt _)]
  dsimp only
  rw [decodeInt_renderInt, decodeInt_none_of_newline (by simp)]

theorem parse_series_cases {times : List ZonedDT} {x : ZonedDT}
    (h : dateutil_parse (List.drop 1 (series_to_string times)) = some x) :
    times = [x] := by
  cases times with
  | nil =>
    rw [show dateutil_parse (List.drop 1 (series_to_string ([] : List ZonedDT))) = none from by
      decide] at h
    cases h
  | cons d rest =>
    cases rest with
    | nil =>
      rw [roundtrip_single] at h
      injection h with h
      rw [h]
    | cons d1 ds =>
      rw [parse_multi_none] at h
      cases h

theorem decodeIntList_length : ∀ {cells : List PyStr} {ms : List Int},
    decodeIntList cells = some ms → ms.length = cells.length := by
  intro cells
  induction cells with
  | nil => intro ms h; cases h; rfl
  | cons c cs ih =>
    intro ms h
    rw [decodeIntList] at h
    cases hc : decodeInt c with
    | none => rw [hc] at h; cases h
    | some i =>
      cases hcs : decodeIntList cs with
      | none => rw [hc, hcs] at h; cases h
      | some is =>
        rw [hc, hcs] at h
        cases h
        simp [ih hcs]

theorem idxOf?_mem : ∀ {name : PyStr} {l : List PyStr} {i : Nat},
    idxOf? name l = some i → name ∈ l := by
  intro name l
  induction l with
  | nil => intro i h; cases h
  | cons hd tl ih =>
    intro i h
    rw [idxOf?] at h
    split at h
    · rename_i he
      rw [← he]
      exact List.mem_cons_self _ _
    · cases hx : idxOf? name tl with
      | none => rw [hx] at h; cases h
      | some j => exact List.mem_cons_of_mem _ (ih hx)

theorem get_last_price_fst (tz : Int → Int) (env : Request → PyStr) (t : PyStr) :
    (get_last_price tz env t).1 = [theRequest t] := rfl

theorem get_last_price_some {tz : Int → Int} {env : Request → PyStr} {t : PyStr}
    {ts : ZonedDT} {disp : DisplayVal} {pr : Rat}
    (h : (get_last_price tz env t).2 = some (ts, disp, pr)) :
    ∃ c m pcell,
      (read_csv (env (theRequest t))).col (("time").data) = some [c] ∧
      decodeInt c = some m ∧
      ts = ⟨m, tz m⟩ ∧
      disp = DisplayVal.series [displayRender ⟨m, tz m⟩] ∧
      (read_csv (env (theRequest t))).col (("price").data) = some [pcell] ∧
      decodeRat pcell = some pr := by
  rw [get_last_price] at h
  dsimp only at h
  cases hcol : (read_csv (env (theRequest t))).col (("time").data) with
  | none => rw [hcol] at h; cases h
  | some timeCells =>
    rw [hcol] at h
    dsimp only at h
    cases hms : decodeIntList timeCells with
    | none => rw [hms] at h; cases h
    | some ms =>
      rw [hms] at h
      dsimp only at h
      cases hp : dateutil_parse
          (List.drop 1 (series_to_string (ms.map (fun m => tz_convert tz (tz_localize_utc m))))) with
      | none => rw [hp] at h; cases h
      | some time =>
        rw [hp] at h
        dsimp only at h
        have htimes := parse_series_cases hp
        cases ms with
        | nil => simp at htimes
        | cons m mrest =>
          cases mrest with
          | nil =>
            simp only [List.map_cons, List.map_nil, List.cons.injEq, and_true] at htimes
            have hcells1 : timeCells.length = 1 := by
              have := decodeIntList_length hms
              simpa using this.symm
            obtain ⟨c, hc⟩ : ∃ c, timeCells = [c] := by
              cases timeCells with
              | nil => simp at hcells1
              | cons c rest =>
                cases rest with
                | nil => exact ⟨c, rfl⟩
                | cons _ _ => simp at hcells1
            subst hc
            have hdec : decodeInt c = some m := by
              rw [decodeIntList] at hms
              cases hd : decodeInt c with
              | none => rw [hd] at hms; cases hms
              | some i =>
                rw [hd] at hms
                dsimp only [decodeIntList] at hms
                cases hms
                rfl
            cases hpc : (read_csv (env (theRequest t))).col (("price").data) with
            | none => rw [hpc] at h; cases h
            | some priceCells =>
              rw [hpc] at h
              dsimp only at h
              cases hf : float_of_series priceCells with
              | none => rw [hf] at h; cases h
              | some price =>
                rw [hf] at h
                cases h
                obtain ⟨pcell, hpcell, hdr⟩ :
                    ∃ pcell, priceCells = [pcell] ∧ decodeRat pcell = some pr := by
                  cases priceCells with
                  | nil => cases hf
                  | cons p prest =>
                    cases prest with
                    | nil => exact ⟨p, rfl, hf⟩
                    | cons _ _ => cases hf
                refine ⟨c, m, pcell, ?_, ?_, ?_, ?_, ?_, ?_⟩
                · rfl
                · exact hdec
                · exact htimes.symm
                · rfl
                · rw [hpcell]
                · exact hdr
          | cons m1 ms1 =>
            simp at htimes

theorem update_price_fetch_ok {tz : Int → Int} {env : Request → PyStr} {now1 now2 : Int}
    {s : AppState} {q : ZonedDT × DisplayVal × Rat}
    (ht : s.TICKER ≠ []) (hq : (get_last_price tz env s.TICKER).2 = some q) :
    (update_price tz env now1 now2 s).2 =
      some ⟨s.TICKER, s.title,
        ⟨lastN 3600 (s.data.time ++ [q.1]),
         lastN 3600 (s.data.display_time ++ [q.2.1]),
         lastN 3600 (s.data.price ++ [q.2.2])⟩⟩ := by
  have hq' : get_last_price tz env s.TICKER = ((get_last_price tz env s.TICKER).1, some q) := by
    rw [← hq]
  rw [update_price, if_neg ht, hq']
  obtain ⟨qt, qd, qp⟩ := q
  rfl

theorem update_price_empty {tz : Int → Int} {env : Request → PyStr} {now1 now2 : Int}
    {s : AppState} (ht : s.TICKER = []) :
    update_price tz env now1 now2 s =
      ([], some { s with
        data := s.data.stream ⟨[init tz now1], [DisplayVal.dt (init tz now2)], [0]⟩ 3600 }) := by
  rw [update_price, if_pos ht]

theorem runTicks_master {tz : Int → Int} {t : PyStr} (ht : t ≠ [])
    {steps : List TickEnv} {quotes : List (ZonedDT × DisplayVal × Rat)}
    (hf : List.Forall₂
      (fun (st : TickEnv) q => (get_last_price tz st.1 t).2 = some q) steps quotes) :
    ∀ s : AppState, s.TICKER = t →
      s.data.time.length ≤ 3600 → s.data.display_time.length ≤ 3600 →
      s.data.price.length ≤ 3600 →
      ∃ s', runTicks tz steps s = some s' ∧ s'.TICKER = t ∧ s'.title = s.title ∧
        s'.data.time = lastN 3600 (s.data.time ++ quotes.map (fun q => q.1)) ∧
        s'.data.display_time =
          lastN 3600 (s.data.display_time ++ quotes.map (fun q => q.2.1)) ∧
        s'.data.price = lastN 3600 (s.data.price ++ quotes.map (fun q => q.2.2)) := by
  induction hf with
  | nil =>
    intro s hT hl1 hl2 hl3
    refine ⟨s, rfl, hT, rfl, ?_, ?_, ?_⟩
    · rw [List.map_nil, List.append_nil, lastN_of_le hl1]
    · rw [List.map_nil, List.append_nil, lastN_of_le hl2]
    · rw [List.map_nil, List.append_nil, lastN_of_le hl3]
  | cons h1 h2 ih =>
    rename_i a b l₁ l₂
    intro s hT hl1 hl2 hl3
    obtain ⟨env, n1, n2⟩ := a
    have hts : s.TICKER ≠ [] := by rw [hT]; exact ht
    have hq : (get_last_price tz env s.TICKER).2 = some b := by rw [hT]; exact h1
    have hstep := @update_price_fetch_ok tz env n1 n2 s b hts hq
    rw [runTicks, hstep]
    dsimp only
    obtain ⟨s', hrun, hT', htitle, e1, e2, e3⟩ :=
      ih ⟨s.TICKER, s.title,
          ⟨lastN 3600 (s.data.time ++ [b.1]),
           lastN 3600 (s.data.display_time ++ [b.2.1]),
           lastN 3600 (s.data.price ++ [b.2.2])⟩⟩
        hT (lastN_length_le _ _) (lastN_length_le _ _) (lastN_length_le _ _)
    refine ⟨s', hrun, hT', htitle, ?_, ?_, ?_⟩
    · rw [e1]
      show lastN 3600 (lastN 3600 (s.data.time ++ [b.1]) ++ l₂.map (fun q => q.1)) = _
      rw [lastN_append_lastN, List.append_assoc]
      rfl
    · rw [e2]
      show lastN 3600
        (lastN 3600 (s.data.display_time ++ [b.2.1]) ++ l₂.map (fun q => q.2.1)) = _
      rw [lastN_append_lastN, List.append_assoc]
      rfl
    · rw [e3]
      show lastN 3600 (lastN 3600 (s.data.price ++ [b.2.2]) ++ l₂.map (fun q => q.2.2)) = _
      rw [lastN_append_lastN, List.append_assoc]
      rfl

theorem col_length {df : DataFrame} {name : PyStr} {cells : List PyStr}
    (h : df.col name = some cells) : cells.length = df.rows.length := by
  rw [DataFrame.col] at h
  cases hidx : idxOf? name df.header with
  | none => rw [hidx] at h; cases h
  | some i =>
    rw [hidx] at h
    injection h with h
    rw [← h, List.length_map]

theorem get_last_price_multirow {tz : Int → Int} {env : Request → PyStr} {t : PyStr}
    (hrows : 2 ≤ (read_csv (env (theRequest t))).rows.length) :
    (get_last_price tz env t).2 = none := by
  rw [get_last_price]
  dsimp only
  cases hcol : (read_csv (env (theRequest t))).col (("time").data) with
  | none => rfl
  | some timeCells =>
    dsimp only
    cases hms : decodeIntList timeCells with
    | none => rfl
    | some ms =>
      dsimp only
      have hlen : 2 ≤ ms.length := by
        rw [decodeIntList_length hms, col_length hcol]
        exact hrows
      obtain ⟨m0, m1, mrest, rfl⟩ : ∃ m0 m1 mrest, ms = m0 :: m1 :: mrest := by
        cases ms with
        | nil => simp at hlen
        | cons m0 t0 =>
          cases t0 with
          | nil => simp at hlen
          | cons m1 t1 => exact ⟨m0, m1, t1, rfl⟩
      rw [List.map_cons, List.map_cons, parse_multi_none]

theorem read_csv_csvFor (i : Nat) :
    read_csv (csvFor i) = ⟨[("time").data, ("price").data], [[renderNat i, ['1']]]⟩ := by
  have h2 : splitOnChar '\n' (renderNat i ++ ',' :: ['1']) = [renderNat i ++ ',' :: ['1']] :=
    splitOnChar_no_sep (by
      intro hmem
      rcases List.mem_append.mp hmem with hm | hm
      · exact isDigitChar_ne_newline (mem_renderNat_digit hm) rfl
      · simp at hm)
  have h1 : splitOnChar '\n' (("time,price").data ++ '\n' :: (renderNat i ++ ',' :: ['1'])) =
      ("time,price").data :: [renderNat i ++ ',' :: ['1']] := by
    rw [splitOnChar_append _ (by decide), h2]
  have h3 : splitOnChar ',' (renderNat i ++ ',' :: ['1']) = [renderNat i, ['1']] := by
    rw [splitOnChar_append _ (by
      intro hmem
      exact absurd (mem_renderNat_digit hmem) (by decide))]
    rfl
  rw [csvFor, read_csv, h1]
  dsimp only
  have hne : renderNat i ++ ',' :: ['1'] ≠ [] := by
    intro hh
    exact absurd (List.append_eq_nil.mp hh).2 (by simp)
  rw [List.filter_cons_of_pos (by simp [hne]), List.filter_nil, List.map_cons, List.map_nil,
    h3]
  rfl

theorem get_last_price_csvFor (tz : Int → Int) (t : PyStr) (i : Nat) :
    (get_last_price tz (fun _ => csvFor i) t).2 =
      some (⟨(i : Int), tz (i : Int)⟩,
        DisplayVal.series [displayRender ⟨(i : Int), tz (i : Int)⟩], (1 : Rat)) := by
  rw [get_last_price]
  dsimp only
  have hcolT : (read_csv (csvFor i)).col (("time").data) = some [renderNat i] := by
    rw [read_csv_csvFor]
    rfl
  have hcolP : (read_csv (csvFor i)).col (("price").data) = some [['1']] := by
    rw [read_csv_csvFor]
    rfl
  rw [hcolT]
  dsimp only
  rw [show decodeIntList [renderNat i] = some [(i : Int)] from by
    rw [decodeIntList, decodeInt_renderNat]
    rfl]
  dsimp only
  rw [List.map_cons, List.map_nil]
  rw [show tz_convert tz (tz_localize_utc (i : Int)) = ⟨(i : Int), tz (i : Int)⟩ from rfl]
  rw [roundtrip_single]
  dsimp only
  rw [hcolP]
  dsimp only
  rw [show float_of_series [['1']] = some (1 : Rat) from by decide]
  rfl

theorem exists_quotes {tz : Int → Int} {t : PyStr} :
    ∀ steps : List TickEnv,
      (∀ st ∈ steps, ((get_last_price tz st.1 t).2).isSome) →
      ∃ quotes, List.Forall₂
        (fun (st : TickEnv) q => (get_last_price tz st.1 t).2 = some q) steps quotes := by
  intro steps
  induction steps with
  | nil => exact fun _ => ⟨[], List.Forall₂.nil⟩
  | cons a l ih =>
    intro h
    obtain ⟨q, hq⟩ := Option.isSome_iff_exists.mp (h a (List.mem_cons_self _ _))
    obtain ⟨qs, hqs⟩ := ih (fun st hst => h st (List.mem_cons_of_mem _ hst))
    exact ⟨q :: qs, List.Forall₂.cons hq hqs⟩

theorem update_price_bound {tz : Int → Int} {env : Request → PyStr} {now1 now2 : Int}
    {s s' : AppState} (h : (update_price tz env now1 now2 s).2 = some s') :
    s'.data.time.length ≤ 3600 ∧ s'.data.display_time.length ≤ 3600 ∧
      s'.data.price.length ≤ 3600 := by
  rw [update_price] at h
  split at h
  · dsimp only at h
    injection h with h
    subst h
    exact ⟨lastN_length_le _ _, lastN_length_le _ _, lastN_length_le _ _⟩
  · cases hg : get_last_price tz env s.TICKER with
    | mk reqs res =>
      rw [hg] at h
      cases res with
      | none => dsimp only at h; cases h
      | some q =>
        obtain ⟨qt, qd, qp⟩ := q
        dsimp only at h
        injection h with h
        subst h
        exact ⟨lastN_length_le _ _, lastN_length_le _ _, lastN_length_le _ _⟩

/-- C1: starting from an empty Streaming Buffer with a non-empty ticker, a
sequence of `k` tick invocations during which every fetch succeeds leaves
every column of the Streaming Buffer with length `min k 3600`: each tick
appends exactly one entry per column and the stream call applies the
rollover bound N = 3600. -/
theorem C1_tick_lengths (tz : Int → Int) (t : PyStr) (steps : List TickEnv) (s : AppState)
    (ht : t ≠ []) (hT : s.TICKER = t) (hd : s.data = ⟨[], [], []⟩)
    (hok : ∀ st ∈ steps, ((get_last_price tz st.1 t).2).isSome) :
    ∃ s', runTicks tz steps s = some s' ∧
      s'.data.time.length = min steps.length 3600 ∧
      s'.data.display_time.length = min steps.length 3600 ∧
      s'.data.price.length = min steps.length 3600 := by
  obtain ⟨quotes, hf⟩ := exists_quotes steps hok
  obtain ⟨s', hrun, _, _, e1, e2, e3⟩ :=
    runTicks_master ht hf s hT (by rw [hd]; exact Nat.zero_le _)
      (by rw [hd]; exact Nat.zero_le _) (by rw [hd]; exact Nat.zero_le _)
  have hlen : quotes.length = steps.length := hf.length_eq.symm
  rw [hd] at e1 e2 e3
  refine ⟨s', hrun, ?_, ?_, ?_⟩
  · rw [e1, lastN_length]
    simp [hlen]
  · rw [e2, lastN_length]
    simp [hlen]
  · rw [e3, lastN_length]
    simp [hlen]

/-- Witness for C1: one tick against a concrete CSV response. -/
theorem C1_tick_lengths_witness :
    ∃ s', runTicks (fun _ => 0) [((fun _ => csvFor 0), 0, 0)]
        (update_ticker (("AAPL").data) initState) = some s' ∧
      s'.data.time.length = min 1 3600 ∧
      s'.data.display_time.length = min 1 3600 ∧
      s'.data.price.length = min 1 3600 := by
  refine C1_tick_lengths (fun _ => 0) (("AAPL").data) [((fun _ => csvFor 0), 0, 0)]
    (update_ticker (("AAPL").data) initState) (by decide) rfl rfl ?_
  intro st hst
  rw [List.mem_singleton] at hst
  subst hst
  rw [show (get_last_price (fun _ => (0 : Int)) (fun _ => csvFor 0) (("AAPL").data)).2 =
      some (⟨0, 0⟩, DisplayVal.series [displayRender ⟨0, 0⟩], 1) from
    get_last_price_csvFor _ _ 0]
  rfl

/-- C2: in every state reachable from module initialisation by any
interleaving of `update_ticker` submissions and `update_price` ticks, every
column of the Streaming Buffer has length at most N = 3600: each step either
clears the buffer or appends with the rollover bound. -/
theorem C2_buffer_bound (tz : Int → Int) (s : AppState) (h : Reachable tz s) :
    s.data.time.length ≤ 3600 ∧ s.data.display_time.length ≤ 3600 ∧
      s.data.price.length ≤ 3600 := by
  unfold Reachable at h
  induction h with
  | refl => exact ⟨Nat.zero_le _, Nat.zero_le _, Nat.zero_le _⟩
  | tail hsteps hstep ih =>
    cases hstep with
    | ticker v s₀ => exact ⟨Nat.zero_le _, Nat.zero_le _, Nat.zero_le _⟩
    | price env now1 now2 s₀ s₁ hup => exact update_price_bound hup

/-- Witness for C2 at the initial state. -/
theorem C2_buffer_bound_witness :
    Reachable (fun _ => -240) initState ∧
      initState.data.time.length ≤ 3600 ∧
      initState.data.display_time.length ≤ 3600 ∧
      initState.data.price.length ≤ 3600 :=
  ⟨Relation.ReflTransGen.refl,
    C2_buffer_bound (fun _ => -240) initState Relation.ReflTransGen.refl⟩

/-- C3: `update_ticker` with the text box holding `v` overwrites the
process-wide ticker with `v`, sets the chart title to reflect `v`, and
resets all three columns of the Streaming Buffer to empty. -/
theorem C3_update_ticker (v : PyStr) (s : AppState) :
    (update_ticker v s).TICKER = v ∧
    (update_ticker v s).title = ("IEX Real-Time Price: ").data ++ v ∧
    (update_ticker v s).data.time = [] ∧
    (update_ticker v s).data.display_time = [] ∧
    (update_ticker v s).data.price = [] :=
  ⟨rfl, rfl, rfl, rfl, rfl⟩

/-- C4: with the ticker empty, one invocation of `update_price` performs no
network request and appends exactly one entry: its timestamp is the Time
Source value `init` (the current instant with the fixed target timezone's
offset) and its price is 0.0. -/
theorem C4_placeholder (tz : Int → Int) (env : Request → PyStr) (now1 now2 : Int)
    (s : AppState) (hT : s.TICKER = []) (hd : s.data = ⟨[], [], []⟩) :
    ∃ s', update_price tz env now1 now2 s = ([], some s') ∧
      s'.data.time = [init tz now1] ∧
      s'.data.display_time = [DisplayVal.dt (init tz now2)] ∧
      s'.data.price = [0] := by
  rw [update_price_empty hT, hd]
  refine ⟨_, rfl, ?_, ?_, ?_⟩
  · show ((⟨[], [], []⟩ : ColumnDataSource).stream
      ⟨[init tz now1], [DisplayVal.dt (init tz now2)], [0]⟩ 3600).time = [init tz now1]
    rw [stream_time, List.nil_append, lastN_of_le (by simp)]
  · show ((⟨[], [], []⟩ : ColumnDataSource).stream
      ⟨[init tz now1], [DisplayVal.dt (init tz now2)], [0]⟩ 3600).display_time =
        [DisplayVal.dt (init tz now2)]
    rw [stream_display, List.nil_append, lastN_of_le (by simp)]
  · show ((⟨[], [], []⟩ : ColumnDataSource).stream
      ⟨[init tz now1], [DisplayVal.dt (init tz now2)], [0]⟩ 3600).price = [0]
    rw [stream_price, List.nil_append, lastN_of_le (by simp)]

/-- Witness for C4 at the initial state with concrete clock readings. -/
theorem C4_placeholder_witness :
    ∃ s', update_price (fun _ => -240) (fun _ => []) 12 34 initState = ([], some s') ∧
      s'.data.time = [init (fun _ => -240) 12] ∧
      s'.data.display_time = [DisplayVal.dt (init (fun _ => -240) 34)] ∧
      s'.data.price = [0] :=
  C4_placeholder (fun _ => -240) (fun _ => []) 12 34 initState rfl rfl

/-- C5: with a non-empty ticker, a run of N+5 = 3605 ticks whose fetches all
succeed with strictly increasing timestamps leaves the Streaming Buffer at
length exactly N = 3600 and holding precisely the 3600 most recent entries
in append order: the oldest 5 entries are evicted from the front. -/
theorem C5_rollover_eviction (tz : Int → Int) (t : PyStr) (steps : List TickEnv)
    (quotes : List (ZonedDT × DisplayVal × Rat)) (ht : t ≠ [])
    (hlen : steps.length = 3605)
    (hf : List.Forall₂ (fun (st : TickEnv) q => (get_last_price tz st.1 t).2 = some q)
      steps quotes)
    (hinc : (quotes.map (fun q => q.1.instantMs)).Pairwise (· < ·)) :
    ∃ s', runTicks tz steps (update_ticker t initState) = some s' ∧
      s'.data.time.length = 3600 ∧
      s'.data.time = (quotes.map (fun q => q.1)).drop 5 ∧
      s'.data.display_time = (quotes.map (fun q => q.2.1)).drop 5 ∧
      s'.data.price = (quotes.map (fun q => q.2.2)).drop 5 := by
  have hq : quotes.length = 3605 := by rw [← hf.length_eq, hlen]
  obtain ⟨s', hrun, _, _, e1, e2, e3⟩ :=
    runTicks_master ht hf (update_ticker t initState) rfl (Nat.zero_le _) (Nat.zero_le _)
      (Nat.zero_le _)
  refine ⟨s', hrun, ?_, ?_, ?_, ?_⟩
  · rw [e1]
    show (lastN 3600 ([] ++ quotes.map (fun q => q.1))).length = 3600
    rw [List.nil_append, lastN_length, List.length_map, hq]
    decide
  · rw [e1]
    show lastN 3600 ([] ++ quotes.map (fun q => q.1)) = (quotes.map (fun q => q.1)).drop 5
    rw [List.nil_append, lastN_eq_drop, List.length_map, hq]
  · rw [e2]
    show lastN 3600 ([] ++ quotes.map (fun q => q.2.1)) =
      (quotes.map (fun q => q.2.1)).drop 5
    rw [List.nil_append, lastN_eq_drop, List.length_map, hq]
  · rw [e3]
    show lastN 3600 ([] ++ quotes.map (fun q => q.2.2)) =
      (quotes.map (fun q => q.2.2)).drop 5
    rw [List.nil_append, lastN_eq_drop, List.length_map, hq]

/-- Witness for C5: 3605 concrete ticks whose fetched timestamps are
0, 1, ..., 3604 ms. -/
theorem C5_rollover_eviction_witness :
    ∃ s', runTicks (fun _ => 0) (stepsFor 3605)
        (update_ticker (("AAPL").data) initState) = some s' ∧
      s'.data.time.length = 3600 ∧
      s'.data.time = ((quotesFor 3605).map (fun q => q.1)).drop 5 ∧
      s'.data.display_time = ((quotesFor 3605).map (fun q => q.2.1)).drop 5 ∧
      s'.data.price = ((quotesFor 3605).map (fun q => q.2.2)).drop 5 := by
  refine C5_rollover_eviction (fun _ => 0) (("AAPL").data) (stepsFor 3605) (quotesFor 3605)
    (by decide) (by simp [stepsFor]) ?_ ?_
  · rw [stepsFor, quotesFor, List.forall₂_map_left_iff, List.forall₂_map_right_iff,
      List.forall₂_same]
    intro i hi
    exact get_last_price_csvFor _ _ i
  · rw [quotesFor, List.map_map, List.pairwise_map]
    refine (List.pairwise_lt_range 3605).imp ?_
    intro a b hab
    show (quoteFor a).1.instantMs < (quoteFor b).1.instantMs
    show (a : Int) < (b : Int)
    exact_mod_cast hab

/-- C6 counterexample: at a concrete successful fetch, the display component
of the returned triple is a one-element pandas Series, not a string,
refuting the claimed Quote shape `display_time : string`. -/
theorem C6_quote_shape_counterexample :
    (get_last_price (fun _ => 0) (fun _ => csvFor 0) (("AAPL").data)).2 =
      some (⟨0, 0⟩, DisplayVal.series [['0']], 1) ∧
    ¬ ∃ s0, DisplayVal.series [['0']] = DisplayVal.str s0 := by
  constructor
  · rw [get_last_price_csvFor]
    rfl
  · rintro ⟨s0, hs⟩
    exact DisplayVal.noConfusion hs

/-- C6 amended: on every successful fetch the returned triple carries a
timezone-aware timestamp and a float price, but its display component is
the one-element pandas Series whose single element is the display string
formatted (strftime "%Y-%m-%d %H:%M:%S") from the converted datetime — a
Series, not a bare string. -/
theorem C6_display_is_series (tz : Int → Int) (env : Request → PyStr) (t : PyStr)
    (ts : ZonedDT) (disp : DisplayVal) (pr : Rat)
    (h : (get_last_price tz env t).2 = some (ts, disp, pr)) :
    disp = DisplayVal.series [displayRender ts] := by
  obtain ⟨c, m, pcell, _, _, hts, hdisp, _, _⟩ := get_last_price_some h
  rw [hdisp, hts]

/-- Witness for C6 (amended) at a concrete fetch. -/
theorem C6_display_is_series_witness :
    DisplayVal.series [['0']] = DisplayVal.series [displayRender ⟨0, 0⟩] :=
  C6_display_is_series (fun _ => 0) (fun _ => csvFor 0) (("AAPL").data) ⟨0, 0⟩
    (DisplayVal.series [['0']]) 1 (by rw [get_last_price_csvFor]; rfl)

/-- C7: a successful fetch whose parsed response's time column holds the
single cell decoding to the ms-epoch value m returns the timestamp
⟨m, tz m⟩: the same instant, localized to UTC and converted to the fixed
target timezone's offset, surviving the series→string→datetime round
trip. -/
theorem C7_ms_to_eastern (tz : Int → Int) (env : Request → PyStr) (t : PyStr)
    (ts : ZonedDT) (disp : DisplayVal) (pr : Rat) (c : PyStr) (m : Int)
    (hres : (get_last_price tz env t).2 = some (ts, disp, pr))
    (hcol : (read_csv (env (theRequest t))).col (("time").data) = some [c])
    (hm : decodeInt c = some m) :
    ts = ⟨m, tz m⟩ := by
  obtain ⟨c', m', pcell, hcol', hm', hts, _, _, _⟩ := get_last_price_some hres
  rw [hcol'] at hcol
  injection hcol with hcol
  injection hcol with hc hnil
  subst hc
  rw [hm'] at hm
  injection hm with hm
  subst hm
  exact hts

/-- Witness for C7 at a concrete fetch with time cell 5 ms. -/
theorem C7_ms_to_eastern_witness :
    (get_last_price (fun _ => 0) (fun _ => csvFor 5) (("AAPL").data)).2 =
      some (⟨5, 0⟩, DisplayVal.series [displayRender ⟨5, 0⟩], 1) ∧
    (read_csv ((fun (_ : Request) => csvFor 5) (theRequest (("AAPL").data)))).col
      (("time").data) = some [['5']] ∧
    decodeInt ['5'] = some 5 ∧
    (⟨5, 0⟩ : ZonedDT) = ⟨5, 0⟩ :=
  ⟨get_last_price_csvFor _ _ 5, by decide, by decide,
    C7_ms_to_eastern (fun _ => 0) (fun _ => csvFor 5) (("AAPL").data) ⟨5, 0⟩
      (DisplayVal.series [displayRender ⟨5, 0⟩]) 1 ['5'] 5
      (get_last_price_csvFor _ _ 5) (by decide) (by decide)⟩

/-- C8: a fetch issues exactly one HTTP GET — the request trace is the
singleton request to the fixed host path `base ++ endpoint` with query
parameters format=csv and symbols=t, with no timeout or cache field — and
on success the response body parsed as comma-separated values contains the
columns `time` and `price`. -/
theorem C8_single_get (tz : Int → Int) (env : Request → PyStr) (t : PyStr)
    (h : ((get_last_price tz env t).2).isSome) :
    (get_last_price tz env t).1 =
      [⟨base ++ endpoint, [(("format").data, ("csv").data), (("symbols").data, t)]⟩] ∧
    ("time").data ∈ (read_csv (env (theRequest t))).header ∧
    ("price").data ∈ (read_csv (env (theRequest t))).header := by
  obtain ⟨r, hr⟩ := Option.isSome_iff_exists.mp h
  obtain ⟨ts, disp, pr⟩ := r
  obtain ⟨c, m, pcell, hcolT, _, _, _, hcolP, _⟩ := get_last_price_some hr
  refine ⟨rfl, ?_, ?_⟩
  · rw [DataFrame.col] at hcolT
    cases hidx : idxOf? (("time").data) (read_csv (env (theRequest t))).header with
    | none => rw [hidx] at hcolT; cases hcolT
    | some idx => exact idxOf?_mem hidx
  · rw [DataFrame.col] at hcolP
    cases hidx : idxOf? (("price").data) (read_csv (env (theRequest t))).header with
    | none => rw [hidx] at hcolP; cases hcolP
    | some idx => exact idxOf?_mem hidx

/-- Witness for C8 at a concrete successful fetch. -/
theorem C8_single_get_witness :
    (get_last_price (fun _ => 0) (fun _ => csvFor 0) (("AAPL").data)).1 =
      [⟨base ++ endpoint,
        [(("format").data, ("csv").data), (("symbols").data, ("AAPL").data)]⟩] ∧
    ("time").data ∈ (read_csv ((fun (_ : Request) => csvFor 0)
      (theRequest (("AAPL").data)))).header ∧
    ("price").data ∈ (read_csv ((fun (_ : Request) => csvFor 0)
      (theRequest (("AAPL").data)))).header :=
  C8_single_get (fun _ => 0) (fun _ => csvFor 0) (("AAPL").data)
    (by rw [get_last_price_csvFor]; rfl)

/-- C9: `update_ticker` clears the Streaming Buffer unconditionally — there
is no change-detection guard, so even when the submitted value equals the
current ticker, all three columns are reset to empty and accumulated
history is discarded. -/
theorem C9_clear_unconditional (v : PyStr) (s : AppState) (h : s.TICKER = v) :
    (update_ticker v s).data.time = [] ∧
    (update_ticker v s).data.display_time = [] ∧
    (update_ticker v s).data.price = [] :=
  ⟨rfl, rfl, rfl⟩

/-- Witness for C9: resubmitting the symbol already selected still clears. -/
theorem C9_clear_unconditional_witness :
    (update_ticker (("AAPL").data)
      (update_ticker (("AAPL").data) initState)).data.time = [] ∧
    (update_ticker (("AAPL").data)
      (update_ticker (("AAPL").data) initState)).data.display_time = [] ∧
    (update_ticker (("AAPL").data)
      (update_ticker (("AAPL").data) initState)).data.price = [] :=
  C9_clear_unconditional (("AAPL").data) (update_ticker (("AAPL").data) initState) rfl

/-- C10: when the parsed CSV response holds more than one data row, the
fetch faults before returning a value (the multi-row series string fails
dateutil parsing after the one-character index strip, and `float()` on the
multi-element price series would also raise), so a multi-symbol response
never yields a Quote. -/
theorem C10_multirow_no_quote (tz : Int → Int) (env : Request → PyStr) (t : PyStr)
    (h : 2 ≤ (read_csv (env (theRequest t))).rows.length) :
    (get_last_price tz env t).2 = none :=
  get_last_price_multirow h

/-- Witness for C10 at a concrete two-row response. -/
theorem C10_multirow_no_quote_witness :
    2 ≤ (read_csv ((fun (_ : Request) => ("time,price\n1,1\n2,2").data)
      (theRequest (("AAPL").data)))).rows.length ∧
    (get_last_price (fun _ => 0) (fun _ => ("time,price\n1,1\n2,2").data)
      (("AAPL").data)).2 = none :=
  ⟨by decide,
    C10_multirow_no_quote (fun _ => 0) (fun _ => ("time,price\n1,1\n2,2").data)
      (("AAPL").data) (by decide)⟩
